import Mathlib

/-!
Verification of the linlabpmutgui backend (TX7332 PMUT control GUI).

Shallow embedding of the Python backend:
- `backend/device/controller.py` (`TX7332Controller.write_reg` / `read_reg`)
  is modelled as a generator of transport-level event traces (`TEv`), the
  events being the `device.writeReg` / `device.readReg` calls it performs.
- `backend/services/beamforming_service.py` (`encode_delay_to_hex`,
  `combine_channel_delays`, `calculate_delays_from_angle`) is modelled as
  pure functions on `ℤ`; Python integers are unbounded, so `ℤ` with the
  bitwise operations `Int.land` / `Int.lor` / `<<<` is the exact semantics.
- the `/apply` route handlers of `backend/api/routers/patterns.py` and
  `backend/api/routers/beamforming.py` are modelled as generators of
  controller-level operation traces (`COp`), the operations being the
  `controller.enable_sync` / `controller.write_reg` calls they perform.
- `backend/services/diagnostics_service.py` (`run_diagnostics`) is modelled
  as a pure function from the six snapshot register values to the
  `(overall_status, checks)` result.
-/

/-! ### Transport-level model of `TX7332Controller` (controller.py) -/

/-- A transport-level event: one `self.device.writeReg` or
`self.device.readReg` call made by `TX7332Controller`. -/
inductive TEv where
  | write (addr value : ℤ)
  | read (addr : ℤ)
deriving DecidableEq, Repr

/-- `TX7332Controller.write_reg(address, value, page_select)`:
set page select, write value, reset page select (controller.py lines 104-119). -/
def write_reg (address value page_select : ℤ) : List TEv :=
  [TEv.write 2 page_select, TEv.write address value, TEv.write 2 0]

/-- `TX7332Controller.read_reg(address, page_select)`: set page select,
enable read mode, read, disable read mode, reset page select
(controller.py lines 121-143). -/
def read_reg (address page_select : ℤ) : List TEv :=
  [TEv.write 2 page_select, TEv.write 0 2, TEv.read address,
   TEv.write 0 0, TEv.write 2 0]

/-- The device's page-select register (register 2) after a trace of
transport events, starting from page `page`: a write to address 2 sets it,
everything else leaves it unchanged. -/
def pageAfter (page : ℤ) : List TEv → ℤ
  | [] => page
  | TEv.write a v :: rest => pageAfter (if a = 2 then v else page) rest
  | TEv.read _ :: rest => pageAfter page rest

/-! ### `BeamformingService.encode_delay_to_hex` (beamforming_service.py) -/

/-- `BeamformingService.encode_delay_to_hex(delay_cycles, fractional)`
(beamforming_service.py lines 90-106):
`value = delay_cycles & 0x3FFF; if fractional: value |= 0x4000; return value`.
Python `&` and `|` on unbounded ints are `Int.land` / `Int.lor`. -/
def encode_delay_to_hex (delay_cycles : ℤ) (fractional : Bool) : ℤ :=
  let value := Int.land delay_cycles 0x3FFF
  if fractional then Int.lor value 0x4000 else value

/-! Bridge lemmas from the bitwise operations to arithmetic. -/

/-- Masking with an all-ones mask is reduction mod a power of two
(`Nat.ldiff` version, needed for the negative branch of `Int.land`). -/
theorem ldiff_two_pow_sub_one (n : ℕ) :
    ∀ m : ℕ, Nat.ldiff (2 ^ n - 1) m = 2 ^ n - 1 - m % 2 ^ n := by
  induction n with
  | zero =>
    intro m
    simp only [pow_zero, Nat.sub_self, Nat.mod_one, Nat.sub_zero]
    apply Nat.eq_of_testBit_eq
    intro i
    simp [Nat.testBit_ldiff]
  | succ n ih =>
    intro m
    have hpos : 1 ≤ 2 ^ n := Nat.one_le_two_pow
    have hp : (2 : ℕ) ^ (n + 1) = 2 * 2 ^ n := by rw [pow_succ]; ring
    have hbit : Nat.bit true (2 ^ n - 1) = 2 ^ (n + 1) - 1 := by
      rw [Nat.bit_val]
      show 2 * (2 ^ n - 1) + 1 = 2 ^ (n + 1) - 1
      omega
    have hlt : m / 2 % 2 ^ n < 2 ^ n := Nat.mod_lt _ (by positivity)
    have hmod : m % 2 ^ (n + 1) = m % 2 + 2 * (m / 2 % 2 ^ n) := by
      rw [hp, Nat.mod_mul]
    have hb : (m.bodd).toNat = m % 2 := by
      rw [Nat.mod_two_of_bodd]
    calc Nat.ldiff (2 ^ (n + 1) - 1) m
        = Nat.ldiff (Nat.bit true (2 ^ n - 1)) (Nat.bit m.bodd m.div2) := by
          rw [hbit, Nat.bit_decomp]
      _ = Nat.bit (true && !m.bodd) (Nat.ldiff (2 ^ n - 1) m.div2) :=
          Nat.ldiff_bit true (2 ^ n - 1) m.bodd m.div2
      _ = Nat.bit (!m.bodd) (2 ^ n - 1 - m / 2 % 2 ^ n) := by
          rw [Bool.true_and, Nat.div2_val, ih]
      _ = 2 ^ (n + 1) - 1 - m % 2 ^ (n + 1) := by
          rw [Nat.bit_val]
          cases hbodd : m.bodd <;> rw [hbodd] at hb <;>
            simp only [Bool.not_true, Bool.not_false, Bool.toNat_true,
              Bool.toNat_false] at hb ⊢ <;> omega

/-- Setting a power-of-two bit above a value is addition. -/
theorem mul_two_pow_or (n : ℕ) :
    ∀ a o : ℕ, o < 2 ^ n → (a * 2 ^ n) ||| o = a * 2 ^ n + o := by
  induction n with
  | zero =>
    intro a o ho
    interval_cases o
    simp
  | succ n ih =>
    intro a o ho
    have hp : (2 : ℕ) ^ (n + 1) = 2 * 2 ^ n := by rw [pow_succ]; ring
    have hbit : Nat.bit false (a * 2 ^ n) = a * 2 ^ (n + 1) := by
      rw [Nat.bit_val]
      show 2 * (a * 2 ^ n) + 0 = a * 2 ^ (n + 1)
      rw [hp]; ring
    have hb : (o.bodd).toNat = o % 2 := by
      rw [Nat.mod_two_of_bodd]
    have hlt : o / 2 < 2 ^ n := by omega
    calc (a * 2 ^ (n + 1)) ||| o
        = (Nat.bit false (a * 2 ^ n)) ||| (Nat.bit o.bodd o.div2) := by
          rw [hbit, Nat.bit_decomp]
      _ = Nat.bit (false || o.bodd) ((a * 2 ^ n) ||| o.div2) :=
          Nat.lor_bit false (a * 2 ^ n) o.bodd o.div2
      _ = Nat.bit o.bodd (a * 2 ^ n + o / 2) := by
          rw [Bool.false_or, Nat.div2_val, ih _ _ hlt]
      _ = a * 2 ^ (n + 1) + o := by
          rw [Nat.bit_val]
          have hR : a * 2 ^ (n + 1) = 2 * (a * 2 ^ n) := by rw [hp]; ring
          rw [hR]
          cases hbodd : o.bodd <;> rw [hbodd] at hb <;>
            simp only [Bool.toNat_true, Bool.toNat_false] at hb ⊢ <;> omega

/-- Python `x & 0x3FFF` on an arbitrary (possibly negative) int is
reduction mod `2 ^ 14`. -/
theorem int_land_mask (c : ℤ) : Int.land c 0x3FFF = c % 16384 := by
  cases c with
  | ofNat n =>
    show ((n &&& 0x3FFF : ℕ) : ℤ) = (n : ℤ) % 16384
    have h : n &&& 0x3FFF = n % 16384 := by
      have := Nat.and_pow_two_sub_one_eq_mod n 14
      norm_num at this
      exact this
    rw [h]
    omega
  | negSucc m =>
    show ((Nat.ldiff 0x3FFF m : ℕ) : ℤ) = Int.negSucc m % 16384
    have h : Nat.ldiff 0x3FFF m = 16383 - m % 16384 := by
      have := ldiff_two_pow_sub_one 14 m
      norm_num at this
      exact this
    rw [h, Int.negSucc_emod m (by norm_num)]
    have hm : m % 16384 < 16384 := Nat.mod_lt _ (by norm_num)
    have : (m : ℤ) % 16384 = ((m % 16384 : ℕ) : ℤ) := by omega
    omega

/-- `encode_delay_to_hex` in arithmetic form: low 14 bits of the input,
plus `2 ^ 14` when `fractional`. -/
theorem encode_delay_to_hex_eq (c : ℤ) (f : Bool) :
    encode_delay_to_hex c f = c % 16384 + (if f then 16384 else 0) := by
  unfold encode_delay_to_hex
  rw [int_land_mask]
  cases f
  · simp
  · simp only [if_true]
    have h0 : 0 ≤ c % 16384 := Int.emod_nonneg c (by norm_num)
    have h1 : c % 16384 < 16384 := Int.emod_lt_of_pos c (by norm_num)
    set v := (c % 16384).toNat with hv
    have hcv : c % 16384 = (v : ℤ) := by omega
    rw [hcv]
    show ((v ||| 0x4000 : ℕ) : ℤ) = (v : ℤ) + 16384
    have hvlt : v < 16384 := by omega
    have := mul_two_pow_or 14 1 v (by norm_num; omega)
    norm_num at this
    rw [Nat.lor_comm] at this
    rw [this]
    omega

/-! ### `BeamformingService.combine_channel_delays` (beamforming_service.py) -/

/-- `BeamformingService.combine_channel_delays(delays)` (beamforming_service.py
lines 108-132): raises `ValueError` unless exactly 32 delays are given, else
for each pair index i packs `(encode(delays[2i+1]) << 16) | encode(delays[2i])`.
The Python `raise ValueError(msg)` is modelled as `Except.error msg`; the
`for i in range(0, 32, 2)` loop, whose loop variable is the even channel
index `2*i` here, is modelled as a map over the 16 pair indices. -/
def combine_channel_delays (delays : List ℤ) : Except String (List ℤ) :=
  if delays.length ≠ 32 then
    Except.error "Must provide exactly 32 delay values"
  else
    Except.ok ((List.range 16).map fun i =>
      let delay_odd := encode_delay_to_hex (delays.getD (2 * i) 0) false
      let delay_even := encode_delay_to_hex (delays.getD (2 * i + 1) 0) false
      Int.lor (delay_even <<< (16 : ℤ)) delay_odd)

/-! ### `BeamformingService.calculate_delays_from_angle` (beamforming_service.py) -/

/-- `BeamformingService.calculate_delays_from_angle` (beamforming_service.py
lines 56-88). The per-element float computation
`int(np.round(pos * sin(deg2rad(angle)) / c / 4e-9))` is abstracted as an
arbitrary integer-valued function `raw` of the element index: every concrete
choice of angle, speed of sound and frequency instantiates some such `raw`,
and for angle 0 IEEE arithmetic gives `sin(0) = 0` exactly, hence
`raw = fun _ => 0`. The clamping `max(0, delay_cycles)`, the `min(delays)`
and the final normalisation `[d - min_delay for d in delays]` are modelled
exactly. -/
def calculate_delays_from_angle (raw : ℕ → ℤ) : List ℤ :=
  let delays := (List.range 32).map fun i => max 0 (raw i)
  let min_delay := (delays.min?).getD 0
  delays.map fun d => d - min_delay

/-! ### Controller-level model of the `/apply` route handlers -/

/-- A controller-level operation: one `controller.enable_sync` or
`controller.write_reg(address, value, page_select)` call made by a route
handler. -/
inductive COp where
  | enableSync (enable : Bool)
  | writeReg (address value pageSelect : ℤ)
deriving DecidableEq, Repr

/-- The controller-operation sequence performed by `apply_beamforming`
(backend/api/routers/beamforming.py lines 62-120) after the delays have been
calculated: combine the delays (a `ValueError` there aborts before any
device access), disable sync, broadcast the delay start word 0x0 to
registers 0x0D..0x14, write the 16 combined words to 0x40 + 0*8 + index on
page 0x00010000, re-enable sync, and enable clock sync detection. -/
def apply_beamforming (delays : List ℤ) : Except String (List COp) :=
  (combine_channel_delays delays).map fun combined_delays =>
    let delay_start_word : ℤ := 0x0
    [COp.enableSync false]
    ++ ((List.range' 0x0D 8).map fun reg_index =>
        COp.writeReg reg_index
          (Int.lor (delay_start_word <<< (16 : ℤ)) delay_start_word) 0)
    ++ (combined_delays.enum.map fun p =>
        COp.writeReg (0x40 + delay_start_word * 8 + p.1) p.2 0x00010000)
    ++ [COp.enableSync true, COp.writeReg 0x08 0x00000002 0]

/-- The controller-operation sequence performed by `apply_pattern`
(backend/api/routers/patterns.py lines 42-95) once the pattern data has been
resolved: disable sync, disable clock sync detection, broadcast the pattern
start word to registers 0x0C..0x13, then write the pattern words to
0x40 + pattern_start_word + i on page 0x0000FFFF. -/
def apply_pattern (pattern_hex : List ℤ) (pattern_start_word : ℤ) : List COp :=
  [COp.enableSync false, COp.writeReg 0x08 0x00000000 0]
  ++ ((List.range' 0x0C 8).map fun reg_index =>
      COp.writeReg reg_index
        (Int.lor (pattern_start_word <<< (16 : ℤ)) pattern_start_word) 0)
  ++ (pattern_hex.enum.map fun p =>
      COp.writeReg (0x40 + pattern_start_word + p.1) p.2 0x0000FFFF)

/-! ### `DiagnosticsService.run_diagnostics` (diagnostics_service.py) -/

/-- One entry of the check list built by `run_diagnostics` (the Python dict
with keys `check_name`, `passed`, `message`; the `value` payload string is
not modelled). -/
structure CheckResult where
  check_name : String
  passed : Bool
  message : String
deriving DecidableEq, Repr

/-- `format(v, '032b')[-k:]` parsed back as binary: the low k bits. -/
def lowBits (v k : ℕ) : ℕ := v % 2 ^ k

/-- `format(v, '032b')[:k]` parsed back as binary: the top k of 32 bits. -/
def topBits (v k : ℕ) : ℕ := v / 2 ^ (32 - k)

/-- `format(v, '032b')[i] == '1'`: big-endian string index i of a 32-bit
value is bit `31 - i`. -/
def bitAt (v i : ℕ) : Bool := v.testBit (31 - i)

/-- `DiagnosticsService.run_diagnostics` (diagnostics_service.py lines
25-100), as a function of the six snapshot register values read from
0x1D, 0x4D, 0x4E, 0x62, 0x6C and 0x78: builds the 16 diagnostic checks,
and when any check failed appends the synthetic `ERROR_RESET` entry
recording the remediation attempt (whose device writes are assumed to
succeed) and reports `FAIL`, else `PASS`. -/
def run_diagnostics (reg1D reg4D reg4E reg62 reg6C reg78 : ℕ) :
    String × List CheckResult :=
  let diagnostic_checks : List (Bool × String) := [
    (lowBits reg4D 6 == 0, "TEMP_SHUT_ERR[11:6]"),
    (lowBits reg62 6 == 0, "TEMP_SHUT_ERR[5:0]"),
    (bitAt reg6C 15 == true, "NO_CLK_ERR"),
    (bitAt reg1D 31 == false, "SINGLE_LVL_ERR"),
    (bitAt reg1D 29 == false, "LONG_TRAN_ERR"),
    (bitAt reg4E 27 == false, "P5V_SUP_ERR"),
    (bitAt reg4E 26 == false, "M5V_SUP_ERR"),
    (bitAt reg4E 16 == false, "PHV_RANGE_ERR"),
    (bitAt reg78 29 == false, "TRIG_ERR"),
    (bitAt reg78 31 == false, "STANDBY_ERR"),
    (topBits reg4D 5 == 21, "VALID_FLAG_1"),
    (topBits reg4E 5 == 10, "VALID_FLAG_2"),
    (topBits reg62 5 == 11, "VALID_FLAG_3"),
    (topBits reg6C 5 == 22, "VALID_FLAG_4"),
    (topBits reg78 5 == 25, "VALID_FLAG_5"),
    (bitAt reg4D 15 == false, "ERROR_RST")
  ]
  let checks := diagnostic_checks.map fun pc =>
    { check_name := pc.2, passed := pc.1,
      message := pc.2 ++ ": " ++ (if pc.1 then "PASSED" else "FAILED")
      : CheckResult }
  let all_passed := diagnostic_checks.all (·.1)
  let checks := if all_passed then checks else
    checks ++ [{ check_name := "ERROR_RESET", passed := true,
                 message := "Error flags reset attempted" : CheckResult }]
  ((if all_passed then "PASS" else "FAIL"), checks)

/-- Antisymmetry of `≤` on ℤ, in the form `List.min?_eq_some_iff` expects. -/
instance : Std.Antisymm (fun (a b : ℤ) => a ≤ b) :=
  ⟨fun h h' => le_antisymm h h'⟩

/-! ### Claim theorems -/

/-- C1: every register write via `write_reg` produces exactly the
three-step transport sequence (select page, write target, reset page) and
every register read via `read_reg` produces exactly the five-step sequence
(select page, enable read mode, read target, disable read mode, reset
page); after either completed transaction the device's page selector is
back at 0, from any starting page. -/
theorem register_access_bracketing (a v p q : ℤ) :
    write_reg a v p = [TEv.write 2 p, TEv.write a v, TEv.write 2 0] ∧
    read_reg a p = [TEv.write 2 p, TEv.write 0 2, TEv.read a,
      TEv.write 0 0, TEv.write 2 0] ∧
    pageAfter q (write_reg a v p) = 0 ∧
    pageAfter q (read_reg a p) = 0 := by
  refine ⟨rfl, rfl, ?_, ?_⟩ <;> simp [write_reg, read_reg, pageAfter]

/-- C3: for cycles in 0..16383, `encode_delay_to_hex` keeps the cycles in
bits [13:0] (so reducing the result mod 2^14 recovers them), sets bit 14
iff `fractional`, and leaves bit 15 clear. -/
theorem encode_round_trip (c : ℕ) (h : c < 16384) (f : Bool) :
    encode_delay_to_hex (c : ℤ) f % 16384 = (c : ℤ) ∧
    (encode_delay_to_hex (c : ℤ) f).toNat.testBit 14 = f ∧
    (encode_delay_to_hex (c : ℤ) f).toNat.testBit 15 = false := by
  have he := encode_delay_to_hex_eq (c : ℤ) f
  cases f
  · have hc : encode_delay_to_hex (c : ℤ) false = (c : ℤ) := by
      rw [he]; simp; omega
    have ht : (encode_delay_to_hex (c : ℤ) false).toNat = c := by
      rw [hc]; omega
    refine ⟨by rw [hc]; omega, ?_, ?_⟩
    · rw [ht]
      exact Nat.testBit_lt_two_pow (by norm_num; omega)
    · rw [ht]
      exact Nat.testBit_lt_two_pow (by norm_num; omega)
  · have hc : encode_delay_to_hex (c : ℤ) true = (c : ℤ) + 16384 := by
      rw [he]; simp; omega
    have ht : (encode_delay_to_hex (c : ℤ) true).toNat = 2 ^ 14 + c := by
      rw [hc]; norm_num; omega
    refine ⟨by rw [hc]; omega, ?_, ?_⟩
    · rw [ht, Nat.testBit_two_pow_add_eq]
      rw [Nat.testBit_lt_two_pow (by norm_num; omega)]
      rfl
    · rw [ht]
      exact Nat.testBit_lt_two_pow (by norm_num; omega)

/-- C3 witness: instantiation at cycles 12345 (both fractional values). -/
theorem encode_round_trip_witness :
    (12345 < 16384 ∧
      (encode_delay_to_hex ((12345 : ℕ) : ℤ) true % 16384 = ((12345 : ℕ) : ℤ) ∧
       (encode_delay_to_hex ((12345 : ℕ) : ℤ) true).toNat.testBit 14 = true ∧
       (encode_delay_to_hex ((12345 : ℕ) : ℤ) true).toNat.testBit 15 = false)) ∧
    (12345 < 16384 ∧
      (encode_delay_to_hex ((12345 : ℕ) : ℤ) false % 16384 = ((12345 : ℕ) : ℤ) ∧
       (encode_delay_to_hex ((12345 : ℕ) : ℤ) false).toNat.testBit 14 = false ∧
       (encode_delay_to_hex ((12345 : ℕ) : ℤ) false).toNat.testBit 15 = false)) :=
  ⟨⟨by norm_num, encode_round_trip 12345 (by norm_num) true⟩,
   ⟨by norm_num, encode_round_trip 12345 (by norm_num) false⟩⟩

/-- C9: `combine_channel_delays` fails with the `ValueError` (the spec's
`InvalidDelayCountError`) on every input whose length is not exactly 32;
the function is pure, so no register write is performed. -/
theorem combine_rejects_bad_length (ds : List ℤ) (h : ds.length ≠ 32) :
    combine_channel_delays ds =
      Except.error "Must provide exactly 32 delay values" := by
  unfold combine_channel_delays
  rw [if_pos h]

/-- C9 witness: instantiation at lengths 31 and 33. -/
theorem combine_rejects_bad_length_witness :
    ((List.replicate 31 (0 : ℤ)).length ≠ 32 ∧
      combine_channel_delays (List.replicate 31 (0 : ℤ)) =
        Except.error "Must provide exactly 32 delay values") ∧
    ((List.replicate 33 (0 : ℤ)).length ≠ 32 ∧
      combine_channel_delays (List.replicate 33 (0 : ℤ)) =
        Except.error "Must provide exactly 32 delay values") :=
  ⟨⟨by decide, combine_rejects_bad_length _ (by decide)⟩,
   ⟨by decide, combine_rejects_bad_length _ (by decide)⟩⟩

/-- C10: for every integer input (in particular negative or above 16383),
`encode_delay_to_hex` does not fail: it returns the input reduced mod 2^14
(plus bit 14 when fractional), i.e. it agrees with itself applied to the
input reduced mod 2^14. -/
theorem encode_out_of_range_truncates (c : ℤ) (f : Bool) :
    encode_delay_to_hex c f = c % 2 ^ 14 + (if f then 2 ^ 14 else 0) ∧
    encode_delay_to_hex c f = encode_delay_to_hex (c % 2 ^ 14) f := by
  have h1 := encode_delay_to_hex_eq c f
  have h2 := encode_delay_to_hex_eq (c % 2 ^ 14) f
  norm_num at h1 h2 ⊢
  refine ⟨h1, ?_⟩
  rw [h1, h2]

/-- `encode_delay_to_hex _ false` lands in [0, 2^14). -/
theorem encode_false_bounds (c : ℤ) :
    0 ≤ encode_delay_to_hex c false ∧ encode_delay_to_hex c false < 16384 := by
  rw [encode_delay_to_hex_eq]
  simp only [if_neg Bool.false_ne_true, add_zero]
  exact ⟨Int.emod_nonneg c (by norm_num), Int.emod_lt_of_pos c (by norm_num)⟩

/-- Python `(e << 16) | o` on non-negative ints with `o < 2^16` is
`e * 2^16 + o`. -/
theorem int_shift_or_arith (e o : ℤ) (he : 0 ≤ e) (h0 : 0 ≤ o)
    (ho : o < 65536) : Int.lor (e <<< (16 : ℤ)) o = e * 65536 + o := by
  obtain ⟨a, rfl⟩ := Int.eq_ofNat_of_zero_le he
  obtain ⟨b, rfl⟩ := Int.eq_ofNat_of_zero_le h0
  have hb : b < 65536 := by exact_mod_cast ho
  show Int.lor ((a : ℤ) <<< ((16 : ℕ) : ℤ)) (b : ℤ) = (a : ℤ) * 65536 + b
  rw [Int.shiftLeft_coe_nat]
  show ((a <<< 16 ||| b : ℕ) : ℤ) = (a : ℤ) * 65536 + b
  rw [Nat.shiftLeft_eq, mul_two_pow_or 16 a b (by norm_num; omega)]
  push_cast
  norm_num

/-- C2: on any 32-element delay array, `combine_channel_delays` returns
exactly 16 words, each a packed 32-bit value whose low 16 bits are the
encoding of channel 2i and whose high 16 bits are the encoding of channel
2i+1. -/
theorem combine_packs_pairs (ds : List ℤ) (h : ds.length = 32) :
    ∃ out : List ℤ, combine_channel_delays ds = Except.ok out ∧
      out.length = 16 ∧
      ∀ i < 16,
        0 ≤ out.getD i 0 ∧ out.getD i 0 < 4294967296 ∧
        out.getD i 0 % 65536 = encode_delay_to_hex (ds.getD (2 * i) 0) false ∧
        out.getD i 0 / 65536 =
          encode_delay_to_hex (ds.getD (2 * i + 1) 0) false := by
  refine ⟨(List.range 16).map fun i =>
      Int.lor ((encode_delay_to_hex (ds.getD (2 * i + 1) 0) false) <<< (16 : ℤ))
        (encode_delay_to_hex (ds.getD (2 * i) 0) false), ?_, ?_, ?_⟩
  · unfold combine_channel_delays
    rw [if_neg (by omega)]
  · simp
  · intro i hi
    have hget :
        (((List.range 16).map fun i =>
          Int.lor ((encode_delay_to_hex (ds.getD (2 * i + 1) 0) false) <<< (16 : ℤ))
            (encode_delay_to_hex (ds.getD (2 * i) 0) false)).getD i 0) =
        Int.lor ((encode_delay_to_hex (ds.getD (2 * i + 1) 0) false) <<< (16 : ℤ))
          (encode_delay_to_hex (ds.getD (2 * i) 0) false) := by
      rw [List.getD_eq_getElem?_getD, List.getElem?_map, List.getElem?_range hi]
      rfl
    have ho := encode_false_bounds (ds.getD (2 * i) 0)
    have he := encode_false_bounds (ds.getD (2 * i + 1) 0)
    rw [hget, int_shift_or_arith _ _ he.1 ho.1 (by omega)]
    refine ⟨by nlinarith [he.1, ho.1], by nlinarith [he.2, ho.2], by omega, by omega⟩

/-- C2 witness: instantiation at the delay array [0, 1, ..., 31]. -/
theorem combine_packs_pairs_witness :
    ((List.range 32).map fun n => (n : ℤ)).length = 32 ∧
    (∃ out : List ℤ,
      combine_channel_delays ((List.range 32).map fun n => (n : ℤ)) =
        Except.ok out ∧
      out.length = 16 ∧
      ∀ i < 16,
        0 ≤ out.getD i 0 ∧ out.getD i 0 < 4294967296 ∧
        out.getD i 0 % 65536 =
          encode_delay_to_hex
            (((List.range 32).map fun n => (n : ℤ)).getD (2 * i) 0) false ∧
        out.getD i 0 / 65536 =
          encode_delay_to_hex
            (((List.range 32).map fun n => (n : ℤ)).getD (2 * i + 1) 0) false) :=
  ⟨by decide, combine_packs_pairs _ (by decide)⟩

set_option maxRecDepth 10000 in
/-- C7: whatever raw per-element cycle counts the float computation
produces (so in particular for every angle in [-30, 30], speed of sound and
frequency), the output of `calculate_delays_from_angle` has 32 entries,
none negative, and its minimum is exactly 0; and for angle 0 the raw
counts are all 0 (IEEE gives `sin(0) = 0` exactly), in which case all 32
outputs are 0. -/
theorem delays_from_angle_normalized (raw : ℕ → ℤ) :
    (calculate_delays_from_angle raw).length = 32 ∧
    (∀ d ∈ calculate_delays_from_angle raw, 0 ≤ d) ∧
    (calculate_delays_from_angle raw).min? = some 0 ∧
    calculate_delays_from_angle (fun _ => 0) = List.replicate 32 0 := by
  set L := (List.range 32).map fun i => max 0 (raw i) with hL
  obtain ⟨m, hm⟩ : ∃ m, L.min? = some m := by
    cases hc : L.min? with
    | none =>
      rw [List.min?_eq_none_iff] at hc
      simp [hL] at hc
    | some m => exact ⟨m, rfl⟩
  have hmem : m ∈ L := List.min?_mem (fun a b => min_choice a b) hm
  have hle : ∀ b ∈ L, m ≤ b := fun b hb =>
    (List.le_min?_iff (fun a b c => le_min_iff) hm).1 (le_refl m) b hb
  have hcalc : calculate_delays_from_angle raw = L.map fun d => d - m := by
    show L.map (fun d => d - (L.min?).getD 0) = L.map fun d => d - m
    rw [hm]
    rfl
  refine ⟨?_, ?_, ?_, by decide⟩
  · rw [hcalc]
    simp [hL]
  · intro d hd
    rw [hcalc] at hd
    obtain ⟨x, hx, rfl⟩ := List.mem_map.1 hd
    have := hle x hx
    omega
  · rw [hcalc]
    rw [List.min?_eq_some_iff (fun a => le_refl a) (fun a b => min_choice a b)
      (fun a b c => le_min_iff)]
    constructor
    · exact List.mem_map.2 ⟨m, hmem, by omega⟩
    · intro b hb
      obtain ⟨x, hx, rfl⟩ := List.mem_map.1 hb
      have := hle x hx
      omega

set_option maxRecDepth 10000 in
/-- C4: applying the all-zero 32-entry delay array emits, in order: sync
disable; 8 broadcast writes of 0 to registers 0x0D..0x14; 16 writes of 0
to registers 0x40+i (i = 0..15) on page 0x00010000; sync enable; and the
final write of 0x00000002 to register 0x08 — so every delay-table write
strictly precedes the sync re-enable. -/
theorem apply_beamforming_zero_trace :
    apply_beamforming (List.replicate 32 0) = Except.ok
      ([COp.enableSync false,
        COp.writeReg 0x0D 0 0, COp.writeReg 0x0E 0 0, COp.writeReg 0x0F 0 0,
        COp.writeReg 0x10 0 0, COp.writeReg 0x11 0 0, COp.writeReg 0x12 0 0,
        COp.writeReg 0x13 0 0, COp.writeReg 0x14 0 0,
        COp.writeReg 0x40 0 0x00010000, COp.writeReg 0x41 0 0x00010000,
        COp.writeReg 0x42 0 0x00010000, COp.writeReg 0x43 0 0x00010000,
        COp.writeReg 0x44 0 0x00010000, COp.writeReg 0x45 0 0x00010000,
        COp.writeReg 0x46 0 0x00010000, COp.writeReg 0x47 0 0x00010000,
        COp.writeReg 0x48 0 0x00010000, COp.writeReg 0x49 0 0x00010000,
        COp.writeReg 0x4A 0 0x00010000, COp.writeReg 0x4B 0 0x00010000,
        COp.writeReg 0x4C 0 0x00010000, COp.writeReg 0x4D 0 0x00010000,
        COp.writeReg 0x4E 0 0x00010000, COp.writeReg 0x4F 0 0x00010000,
        COp.enableSync true, COp.writeReg 0x08 0x00000002 0]) := by
  rfl

set_option maxRecDepth 10000 in
/-- C5: applying the pattern [0x00020002, 0x0000B5B1] with start word
0x001E emits, after the sync disable and the write of 0 to register 0x08,
exactly 8 broadcast writes of 0x001E001E to registers 0x0C..0x13 on page
0, then the two pattern words to 0x40+0x1E and 0x40+0x1F on page
0x0000FFFF. -/
theorem apply_pattern_example_trace :
    apply_pattern [0x00020002, 0x0000B5B1] 0x001E =
      [COp.enableSync false, COp.writeReg 0x08 0x00000000 0,
       COp.writeReg 0x0C 0x001E001E 0, COp.writeReg 0x0D 0x001E001E 0,
       COp.writeReg 0x0E 0x001E001E 0, COp.writeReg 0x0F 0x001E001E 0,
       COp.writeReg 0x10 0x001E001E 0, COp.writeReg 0x11 0x001E001E 0,
       COp.writeReg 0x12 0x001E001E 0, COp.writeReg 0x13 0x001E001E 0,
       COp.writeReg 0x5E 0x00020002 0x0000FFFF,
       COp.writeReg 0x5F 0x0000B5B1 0x0000FFFF] := by
  decide

/-- C6 (refuted by the code): `apply_pattern` disables sync but contains
no sync re-enable at all — not even on its successful exit path — for
every pattern and start word. -/
theorem apply_pattern_never_reenables_sync (ph : List ℤ) (psw : ℤ) :
    COp.enableSync false ∈ apply_pattern ph psw ∧
    COp.enableSync true ∉ apply_pattern ph psw := by
  constructor
  · simp [apply_pattern]
  · simp [apply_pattern]

/-- C8: with all six diagnostic snapshot registers zero, every
VALID_FLAG_* check is present and fails, NO_CLK_ERR is present and fails,
the overall status is FAIL, and exactly one synthetic ERROR_RESET entry is
recorded. -/
theorem diagnostics_all_zero_fail :
    (run_diagnostics 0 0 0 0 0 0).1 = "FAIL" ∧
    (∀ c ∈ (run_diagnostics 0 0 0 0 0 0).2,
      c.check_name ∈ ["VALID_FLAG_1", "VALID_FLAG_2", "VALID_FLAG_3",
        "VALID_FLAG_4", "VALID_FLAG_5", "NO_CLK_ERR"] → c.passed = false) ∧
    (∀ name ∈ ["VALID_FLAG_1", "VALID_FLAG_2", "VALID_FLAG_3",
        "VALID_FLAG_4", "VALID_FLAG_5", "NO_CLK_ERR"],
      ∃ c ∈ (run_diagnostics 0 0 0 0 0 0).2, c.check_name = name) ∧
    ((run_diagnostics 0 0 0 0 0 0).2.filter
      fun c => c.check_name == "ERROR_RESET").length = 1 := by
  decide
